import Mathlib

/-!
# Verification of the find-crate manifest query engine

A shallow embedding of the manifest search algorithm of the `find-crate`
repository (`src/lib.rs`), together with proofs of the specified properties.

The TOML document model is embedded as an ordered association list
(`Table`), matching the boundary contract of the specification: the engine
receives an already-parsed ordered mapping from string keys to values, where
a value is a string, a nested table, or some other primitive unused by the
search.  Iteration order of a table is the list order.

Each Rust function of `src/lib.rs` is translated to a Lean definition of the
same name.  Parts of the final revision of the crate that are exercised by
`tests/test.rs` but whose implementation is not among the sources (the
`Dependencies` selector enumeration and the target-conditional fallback) are
modelled from the specification and carry a doc comment saying so.
-/

namespace FindCrate

/-- The TOML value model: a tagged union of strings, tables and other
primitives (integers, booleans, arrays, ...) that the search never
inspects. Tables are ordered mappings, represented as association lists. -/
inductive Value where
  | str : String → Value
  | table : List (String × Value) → Value
  | other : Value

/-- An ordered mapping from string keys to TOML values
(`toml::value::Table`). -/
abbrev Table := List (String × Value)

/-- Embeds `Value::as_str`: `Some` exactly on string values. -/
def Value.as_str : Value → Option String
  | .str s => some s
  | _ => none

/-- Embeds `Value::as_table`: `Some` exactly on table values. -/
def Value.as_table : Value → Option Table
  | .table t => some t
  | _ => none

/-- Embeds `Table::get`: the value bound to `k`, i.e. the value of the first
entry whose key is `k`. -/
def Table.get (t : Table) (k : String) : Option Value :=
  (t.find? (fun kv => kv.1 = k)).map (fun kv => kv.2)

/-- Embeds the free function `find_map` of `src/lib.rs`:
`iter.filter_map(f).next()`. -/
def find_map (l : List α) (f : α → Option β) : Option β :=
  (l.filterMap f).head?

/-- Embeds the constant `DEFAULT_DEPENDENCIES` of `src/lib.rs`. -/
def DEFAULT_DEPENDENCIES : List String :=
  ["dependencies", "dev-dependencies", "build-dependencies"]

/-- Embeds the struct `FindOptions`: the names of the tables to be searched
and whether to convert the retrieved name to a valid rust identifier. -/
structure FindOptions where
  dependencies : List String
  rust_ident : Bool
deriving DecidableEq

/-- Embeds `FindOptions::default`. -/
def FindOptions.default : FindOptions :=
  { dependencies := DEFAULT_DEPENDENCIES, rust_ident := true }

/-- Embeds the struct `Package` of `src/lib.rs`.  The `Cow<str>` display
name is modelled as a plain string (the borrowed/owned distinction carries
no content the search depends on). -/
structure Package where
  key : String
  version : Option String
  package : Option String
  rust_ident : String
deriving DecidableEq

/-- Embeds `Package::name`. -/
def Package.name (p : Package) : String :=
  p.rust_ident

/-- Embeds `Package::original_name`: the `package` field if present, else
the key. -/
def Package.original_name (p : Package) : String :=
  p.package.getD p.key

/-- Embeds `Package::is_original`. -/
def Package.is_original (p : Package) : Bool :=
  p.package.isNone

/-- Embeds the nested function `package` of `find_from_dependencies`: for a
table value with a `package` string field accepted by the predicate, that
string. -/
def package (value : Value) (predicate : String → Bool) : Option String :=
  ((value.as_table.bind (fun t => t.get "package")).bind Value.as_str).bind
    (fun s => if predicate s then some s else none)

/-- Embeds the nested function `version` of `find_from_dependencies`: the
value itself when a bare string, else the `version` string field of a table
value. -/
def version (value : Value) : Option String :=
  value.as_str.orElse
    (fun _ => (value.as_table.bind (fun t => t.get "version")).bind Value.as_str)

/-- Embeds the nested function `rust_ident` of `find_from_dependencies`:
when `convert` is set, `s.replace("-", "_")`.  The pattern is the single
character `-`, so the replacement substitutes an underscore for every
hyphen character of `s`. -/
def rust_ident (s : String) (convert : Bool) : String :=
  if convert then String.mk (s.data.map (fun c => if c = '-' then '_' else c)) else s

/-- The per-entry closure passed to `find_map` inside
`find_from_dependencies`: the key is tested first, and otherwise the
`package` rename field is tested. -/
def matchEntry (predicate : String → Bool) (convert : Bool)
    (kv : String × Value) : Option Package :=
  if predicate kv.1 then
    some { key := kv.1, version := version kv.2, package := none,
           rust_ident := rust_ident kv.1 convert }
  else
    match package kv.2 predicate with
    | some p =>
        some { key := kv.1, version := version kv.2, package := some p,
               rust_ident := rust_ident kv.1 convert }
    | none => none

/-- Embeds `find_from_dependencies` of `src/lib.rs`. -/
def find_from_dependencies (table : Table) (predicate : String → Bool)
    (convert : Bool) : Option Package :=
  find_map table (matchEntry predicate convert)

/-- Embeds the struct `Manifest`: a parsed document together with the
search options. -/
structure Manifest where
  manifest : Table
  options : FindOptions

/-- Embeds `Manifest::from_raw`. -/
def Manifest.from_raw (manifest : Table) : Manifest :=
  { manifest := manifest, options := FindOptions.default }

/-- Embeds `Manifest::dependencies`. -/
def Manifest.dependencies (m : Manifest) : List String :=
  m.options.dependencies

/-- Embeds `Manifest::rust_ident`. -/
def Manifest.rust_ident (m : Manifest) : Bool :=
  m.options.rust_ident

/-- Embeds `Manifest::_find`: probe one table name in the document. -/
def Manifest._find (m : Manifest) (dependencies : String)
    (predicate : String → Bool) : Option Package :=
  ((m.manifest.get dependencies).bind Value.as_table).bind
    (fun t => find_from_dependencies t predicate m.rust_ident)

/-- Embeds `Manifest::find`: probe each configured table name in order. -/
def Manifest.find (m : Manifest) (predicate : String → Bool) : Option Package :=
  find_map m.dependencies (fun dependencies => m._find dependencies predicate)

/-- Embeds `Manifest::find_name`. -/
def Manifest.find_name (m : Manifest) (predicate : String → Bool) : Option String :=
  (m.find predicate).map Package.rust_ident

/-- Embeds the struct `ManifestLock`: the resolved dependency tables of a
manifest, collected once. -/
structure ManifestLock where
  manifest : Manifest
  tables : List Table

/-- Embeds `ManifestLock::new`. -/
def ManifestLock.new (manifest : Manifest) : ManifestLock :=
  { tables := manifest.dependencies.filterMap
      (fun dependencies => (manifest.manifest.get dependencies).bind Value.as_table),
    manifest := manifest }

/-- Embeds `Manifest::lock`. -/
def Manifest.lock (m : Manifest) : ManifestLock :=
  ManifestLock.new m

/-- Embeds `ManifestLock::find`. -/
def ManifestLock.find (l : ManifestLock) (predicate : String → Bool) : Option Package :=
  find_map l.tables
    (fun dependencies => find_from_dependencies dependencies predicate l.manifest.rust_ident)

/-- Embeds `ManifestLock::find_name`. -/
def ManifestLock.find_name (l : ManifestLock) (predicate : String → Bool) : Option String :=
  (l.find predicate).map Package.rust_ident

/-- Embeds the enum `Error` of `src/lib.rs`.  Paths are strings; the
`io::Error` and `toml::de::Error` payloads are out-of-scope collaborator
data and are not modelled. -/
inductive Error where
  | NotFoundManifestDir : Error
  | NotFoundManifestFile : String → Error
  | Open : String → Error
  | Read : String → Error
  | Toml : Error
  | NotFound : String → Error
deriving DecidableEq

/-- Embeds `manifest_path`: the `CARGO_MANIFEST_DIR` environment variable
(modelled as an optional input) with `Cargo.toml` appended. -/
def manifest_path (env : Option String) : Except Error String :=
  match env with
  | none => .error .NotFoundManifestDir
  | some dir => .ok (dir ++ "/Cargo.toml")

/-- The state of the filesystem at one path, as `Manifest::from_path`
observes it: not a file, failing to open, failing to read, or readable
bytes whose out-of-scope TOML parse yields a table or fails. -/
inductive FsEntry where
  | notFile : FsEntry
  | openFail : FsEntry
  | readFail : FsEntry
  | file : Option Table → FsEntry

/-- Embeds `Manifest::from_bytes` with the out-of-scope TOML parser
abstracted to its outcome: a parse failure is wrapped as `Error.Toml`, a
parsed table goes through `Manifest::from_raw`. -/
def Manifest.from_bytes (parsed : Option Table) : Except Error Manifest :=
  match parsed with
  | none => .error .Toml
  | some t => .ok (Manifest.from_raw t)

/-- Embeds `Manifest::from_path` over the filesystem model `fs`. -/
def Manifest.from_path (fs : String → FsEntry) (manifest_path : String) :
    Except Error Manifest :=
  match fs manifest_path with
  | .notFile => .error (.NotFoundManifestFile manifest_path)
  | .openFail => .error (.Open manifest_path)
  | .readFail => .error (.Read manifest_path)
  | .file parsed => Manifest.from_bytes parsed

/-- Embeds the free function `find_crate` of `src/lib.rs`: resolve the
manifest path, load the manifest, search it, and turn an absent result into
the hard `Error.NotFound` carrying the manifest path. -/
def find_crate (env : Option String) (fs : String → FsEntry)
    (predicate : String → Bool) : Except Error String :=
  match manifest_path env with
  | .error e => .error e
  | .ok mp =>
    match Manifest.from_path fs mp with
    | .error e => .error e
    | .ok m =>
      match (m.find predicate).map Package.rust_ident with
      | some name => .ok name
      | none => .error (.NotFound mp)

/-- Modelled from the spec: the closed `Dependencies` selector enumeration
(spec section 3) whose implementation is exercised by `tests/test.rs`
(`Dependencies::Default`, `::Dev`, `::Build`, `::All`) but is absent from
the sources here; `src/lib.rs` still carries the earlier free-string-list
design. -/
inductive Dependencies where
  | Default : Dependencies
  | Release : Dependencies
  | Dev : Dependencies
  | Build : Dependencies
  | All : Dependencies
deriving DecidableEq

/-- Modelled from the spec: the fixed, total mapping from a selector to the
ordered list of literal table names it probes (spec section 3: Default =
normal + dev dependencies, All = normal + dev + build). -/
def Dependencies.resolve : Dependencies → List String
  | .Default => ["dependencies", "dev-dependencies"]
  | .Release => ["dependencies"]
  | .Dev => ["dev-dependencies"]
  | .Build => ["build-dependencies"]
  | .All => ["dependencies", "dev-dependencies", "build-dependencies"]

/-- Modelled from the spec: the target-conditional fallback scan (spec
section 4.2), exercised by the `target` test of `tests/test.rs` but absent
from `src/lib.rs`: iterate every entry under the top-level `target` key
and, for each target entry that is a table, re-run the per-table-name
probing in selector order; a missing `target` key or a non-table target
entry silently yields no candidates. -/
def findTargets (m : Manifest) (predicate : String → Bool) : Option Package :=
  match (m.manifest.get "target").bind Value.as_table with
  | none => none
  | some targets =>
    find_map targets (fun kv =>
      match kv.2.as_table with
      | none => none
      | some nested =>
        find_map m.dependencies (fun dependencies =>
          ((Table.get nested dependencies).bind Value.as_table).bind
            (fun t => find_from_dependencies t predicate m.rust_ident)))

/-- Modelled from the spec: the two-phase search (spec section 4.2): the
entire top-level pass first, and only if it yields nothing, the
target-conditional scan. -/
def findWithTargets (m : Manifest) (predicate : String → Bool) : Option Package :=
  match m.find predicate with
  | some p => some p
  | none => findTargets m predicate

/-! ## Stateful predicates

The Rust predicate is an `FnMut` closure: it may carry mutable state of its
own.  The definitions below repeat the search with the closure state
threaded explicitly, in the exact order the Rust code invokes the
predicate (the key first, then the `package` rename field), so that the
side-effect-freedom of a query over its inputs can be stated: the engine
threads the closure state but never touches the manifest, and for a pure
predicate the search coincides with the pure one above. -/

/-- `package` with the predicate's closure state threaded. -/
def packageS (value : Value) (predicate : String → σ → Bool × σ) (s : σ) :
    Option String × σ :=
  match (value.as_table.bind (fun t => t.get "package")).bind Value.as_str with
  | none => (none, s)
  | some str =>
    match predicate str s with
    | (b, s') => (if b then some str else none, s')

/-- The per-entry closure of `find_from_dependencies` with the predicate's
closure state threaded: the key is tested first, then the rename field. -/
def matchEntryS (predicate : String → σ → Bool × σ) (convert : Bool)
    (kv : String × Value) (s : σ) : Option Package × σ :=
  match predicate kv.1 s with
  | (b, s1) =>
    if b then
      (some { key := kv.1, version := version kv.2, package := none,
              rust_ident := rust_ident kv.1 convert }, s1)
    else
      match packageS kv.2 predicate s1 with
      | (some p, s2) =>
          (some { key := kv.1, version := version kv.2, package := some p,
                  rust_ident := rust_ident kv.1 convert }, s2)
      | (none, s2) => (none, s2)

/-- `find_from_dependencies` with the predicate's closure state threaded:
entries are scanned in table order and the scan stops at the first match. -/
def find_from_dependenciesS (table : Table) (predicate : String → σ → Bool × σ)
    (convert : Bool) (s : σ) : Option Package × σ :=
  match table with
  | [] => (none, s)
  | kv :: rest =>
    match matchEntryS predicate convert kv s with
    | (some p, s') => (some p, s')
    | (none, s') => find_from_dependenciesS rest predicate convert s'

/-- `Manifest::_find` with the predicate's closure state threaded. -/
def Manifest._findS (m : Manifest) (dependencies : String)
    (predicate : String → σ → Bool × σ) (s : σ) : Option Package × σ :=
  match (m.manifest.get dependencies).bind Value.as_table with
  | none => (none, s)
  | some t => find_from_dependenciesS t predicate m.rust_ident s

/-- The table-name loop of `Manifest::find` with the predicate's closure
state threaded. -/
def findSAux (m : Manifest) (deps : List String)
    (predicate : String → σ → Bool × σ) (s : σ) : Option Package × σ :=
  match deps with
  | [] => (none, s)
  | d :: rest =>
    match m._findS d predicate s with
    | (some p, s') => (some p, s')
    | (none, s') => findSAux m rest predicate s'

/-- `Manifest::find` with the predicate's closure state threaded. -/
def Manifest.findS (m : Manifest) (predicate : String → σ → Bool × σ)
    (s : σ) : Option Package × σ :=
  findSAux m m.dependencies predicate s

/-- `Manifest::find_name` with the predicate's closure state threaded. -/
def Manifest.find_nameS (m : Manifest) (predicate : String → σ → Bool × σ)
    (s : σ) : Option String × σ :=
  match m.findS predicate s with
  | (found, s') => (found.map Package.rust_ident, s')

/-! ## Concrete documents from the specification's scenarios -/

/-- The concrete scenario document of the spec: `foo` in `dependencies`
and `dev-dependencies` with different versions, `bar` only in
`build-dependencies`. -/
def scenarioManifest : Manifest :=
  Manifest.from_raw
    [("dependencies", .table [("foo", .str "0.1")]),
     ("dev-dependencies", .table [("foo", .str "0.1.1")]),
     ("build-dependencies", .table [("bar", .str "0.2")])]

/-- A document whose only dependency table is nested under a
target-conditional key. -/
def linuxTargetManifest : Manifest :=
  Manifest.from_raw
    [("target", .table
       [("cfg(target_os = \"linux\")", .table
          [("dependencies", .table [("foo", .str "0.1")])])])]

/-- A document declaring `foo` both at top level and under a
target-conditional key, with distinct versions. -/
def dualFooManifest : Manifest :=
  Manifest.from_raw
    [("dependencies", .table [("foo", .str "0.5")]),
     ("target", .table
       [("cfg(unix)", .table
          [("dependencies", .table [("foo", .str "0.9")])])])]

/-- A document with a table-valued dependency entry carrying no `version`
field (the `find2` test of `tests/test.rs` uses this entry). -/
def pathOnlyManifest : Manifest :=
  Manifest.from_raw
    [("dependencies", .table [("baz", .table [("path", .str "..")])])]

/-! ## Basic lemmas about the search combinators -/

theorem find_map_nil (f : α → Option β) : find_map [] f = none := rfl

theorem find_map_cons (a : α) (l : List α) (f : α → Option β) :
    find_map (a :: l) f
      = match f a with
        | some b => some b
        | none => find_map l f := by
  unfold find_map
  rw [List.filterMap_cons]
  cases h : f a <;> simp

theorem find_map_eq_some {l : List α} {f : α → Option β} {b : β}
    (h : find_map l f = some b) : ∃ a ∈ l, f a = some b := by
  unfold find_map at h
  have hb : b ∈ l.filterMap f := by
    cases hfm : l.filterMap f with
    | nil => rw [hfm] at h; cases h
    | cons x xs =>
        rw [hfm] at h
        cases h
        exact List.mem_cons_self b xs
  exact List.mem_filterMap.mp hb

theorem find_map_append_none {l₁ l₂ : List α} {f : α → Option β}
    (h : ∀ a ∈ l₁, f a = none) : find_map (l₁ ++ l₂) f = find_map l₂ f := by
  unfold find_map
  rw [List.filterMap_append]
  have h1 : l₁.filterMap f = [] := by
    simp only [List.filterMap_eq_nil_iff]
    exact h
  rw [h1, List.nil_append]

theorem matchEntry_key {predicate : String → Bool} {convert : Bool}
    {kv : String × Value} {p : Package}
    (h : matchEntry predicate convert kv = some p) : p.key = kv.1 := by
  unfold matchEntry at h
  split at h
  · cases h; rfl
  · split at h
    · cases h; rfl
    · cases h

/-! ## Pure predicates collapse the stateful search to the pure one -/

theorem packageS_pure {σ : Type} {predicate : String → σ → Bool × σ}
    {f : String → Bool} (hpure : ∀ x t, predicate x t = (f x, t))
    (value : Value) (s : σ) : packageS value predicate s = (package value f, s) := by
  unfold packageS package
  cases h : (value.as_table.bind (fun t => t.get "package")).bind Value.as_str with
  | none => rfl
  | some str =>
      dsimp only
      rw [hpure str s]
      rfl

theorem matchEntryS_pure {σ : Type} {predicate : String → σ → Bool × σ}
    {f : String → Bool} (hpure : ∀ x t, predicate x t = (f x, t))
    (convert : Bool) (kv : String × Value) (s : σ) :
    matchEntryS predicate convert kv s = (matchEntry f convert kv, s) := by
  unfold matchEntryS matchEntry
  rw [hpure kv.1 s]
  by_cases hb : f kv.1 = true
  · rw [hb]; rfl
  · rw [Bool.not_eq_true] at hb
    rw [hb]
    simp only [Bool.false_eq_true, if_false]
    rw [packageS_pure hpure]
    cases package kv.2 f <;> rfl

theorem find_from_dependenciesS_pure {σ : Type} {predicate : String → σ → Bool × σ}
    {f : String → Bool} (hpure : ∀ x t, predicate x t = (f x, t))
    (table : Table) (convert : Bool) (s : σ) :
    find_from_dependenciesS table predicate convert s
      = (find_from_dependencies table f convert, s) := by
  induction table generalizing s with
  | nil => rfl
  | cons kv rest ih =>
      unfold find_from_dependenciesS
      rw [matchEntryS_pure hpure]
      unfold find_from_dependencies
      rw [find_map_cons]
      cases matchEntry f convert kv with
      | none => exact ih s
      | some p => rfl

theorem findSAux_pure {σ : Type} {predicate : String → σ → Bool × σ}
    {f : String → Bool} (hpure : ∀ x t, predicate x t = (f x, t))
    (m : Manifest) (deps : List String) (s : σ) :
    findSAux m deps predicate s
      = (find_map deps (fun d => m._find d f), s) := by
  induction deps generalizing s with
  | nil => rfl
  | cons d rest ih =>
      unfold findSAux
      rw [find_map_cons]
      have hfind : m._findS d predicate s = (m._find d f, s) := by
        unfold Manifest._findS Manifest._find
        cases (m.manifest.get d).bind Value.as_table with
        | none => rfl
        | some t => exact find_from_dependenciesS_pure hpure t m.rust_ident s
      rw [hfind]
      cases m._find d f with
      | none => exact ih s
      | some p => rfl

theorem from_path_no_notFound (fs : String → FsEntry) (p q : String) :
    Manifest.from_path fs p ≠ Except.error (Error.NotFound q) := by
  unfold Manifest.from_path
  cases fs p with
  | notFile =>
      intro h
      injection h with h2
      cases h2
  | openFail =>
      intro h
      injection h with h2
      cases h2
  | readFail =>
      intro h
      injection h with h2
      cases h2
  | file parsed =>
      cases parsed with
      | none =>
          intro h
          injection h with h2
          cases h2
      | some t =>
          intro h
          cases h

/-! ## The claimed properties -/

/-- Claim C1, counterexample: in `find_from_dependencies` the key of an
entry is tested before its `package` rename field, so a predicate matching
the key `foo-renamed` of a renamed dependency entry (and not the original
package name `foo`) does match the entry, contrary to the claim; the
returned descriptor records no rename. -/
theorem renamed_key_still_matches :
    find_from_dependencies
        [("foo-renamed", .table [("package", .str "foo"), ("version", .str "0.1")])]
        (fun s => s == "foo-renamed") true
      = some { key := "foo-renamed", version := some "0.1", package := none,
               rust_ident := "foo_renamed" } := by
  decide

/-- Claim C1 (amended): for a renamed dependency entry
`key = { package = P, version = V }` reached first in the table scan, a
predicate accepting `P` but not `key` yields the descriptor with display
name `rust_ident key`, original package name `P` and version `V`; a
predicate accepting the key itself also matches the entry, but then no
rename is recorded, so the original name reported is the key. -/
theorem renamed_entry_find (key P V : String) (predicate : String → Bool)
    (front rest : Table)
    (hfront : ∀ kv ∈ front, matchEntry predicate true kv = none) :
    (predicate P = true → predicate key = false →
      find_from_dependencies
          (front ++ (key, .table [("package", .str P), ("version", .str V)]) :: rest)
          predicate true
        = some { key := key, version := some V, package := some P,
                 rust_ident := rust_ident key true })
    ∧ (predicate key = true →
      find_from_dependencies
          (front ++ (key, .table [("package", .str P), ("version", .str V)]) :: rest)
          predicate true
        = some { key := key, version := some V, package := none,
                 rust_ident := rust_ident key true }) := by
  have hstep :
      find_from_dependencies
          (front ++ (key, .table [("package", .str P), ("version", .str V)]) :: rest)
          predicate true
        = match matchEntry predicate true
            (key, .table [("package", .str P), ("version", .str V)]) with
          | some p => some p
          | none => find_from_dependencies rest predicate true := by
    unfold find_from_dependencies
    rw [find_map_append_none hfront, find_map_cons]
    cases matchEntry predicate true
      (key, .table [("package", .str P), ("version", .str V)]) <;> rfl
  constructor
  · intro hP hkey
    have hme : matchEntry predicate true
        (key, .table [("package", .str P), ("version", .str V)])
        = some { key := key, version := some V, package := some P,
                 rust_ident := rust_ident key true } := by
      unfold matchEntry
      dsimp only
      rw [hkey]
      simp only [Bool.false_eq_true, if_false]
      have hpkg : package (Value.table [("package", .str P), ("version", .str V)])
          predicate = if predicate P = true then some P else none := rfl
      rw [hpkg, hP, if_pos rfl]
      rfl
    rw [hstep, hme]
  · intro hkey
    have hme : matchEntry predicate true
        (key, .table [("package", .str P), ("version", .str V)])
        = some { key := key, version := some V, package := none,
                 rust_ident := rust_ident key true } := by
      unfold matchEntry
      dsimp only
      rw [hkey, if_pos rfl]
      rfl
    rw [hstep, hme]

/-- Claim C1, witness: the spec's renaming scenario,
`foo-renamed = { package = "foo", version = "0.1" }` searched for `"foo"`. -/
theorem renamed_entry_find_witness :
    find_from_dependencies
        [("foo-renamed", .table [("package", .str "foo"), ("version", .str "0.1")])]
        (fun s => s == "foo") true
      = some { key := "foo-renamed", version := some "0.1", package := some "foo",
               rust_ident := "foo_renamed" } := by
  have h := (renamed_entry_find "foo-renamed" "foo" "0.1" (fun s => s == "foo") [] []
      (by intro kv hkv; cases hkv)).1 (by decide) (by decide)
  exact h.trans (by decide)

/-- Claim C3 (code bug): on the source's search, a matched table-valued
entry lacking a `version` field yields an absent version (`none`), not the
literal `"*"` required by the spec and asserted by the repository's own
`find2` test in `tests/test.rs`. -/
theorem version_absent_without_version_field :
    pathOnlyManifest.find (fun s => s == "baz")
      = some { key := "baz", version := none, package := none,
               rust_ident := "baz" } := by
  decide

/-- Claim C4: the selector-to-table-name mapping is fixed and total;
`Default` resolves to exactly the normal and dev dependency tables, `All`
to normal + dev + build (the table names of `DEFAULT_DEPENDENCIES` in
`src/lib.rs`), and every selector resolves to a non-empty list. -/
theorem dependencies_resolve_spec :
    Dependencies.resolve .Default = ["dependencies", "dev-dependencies"]
    ∧ Dependencies.resolve .Release = ["dependencies"]
    ∧ Dependencies.resolve .Dev = ["dev-dependencies"]
    ∧ Dependencies.resolve .Build = ["build-dependencies"]
    ∧ Dependencies.resolve .All
        = ["dependencies", "dev-dependencies", "build-dependencies"]
    ∧ Dependencies.resolve .All = DEFAULT_DEPENDENCIES
    ∧ ∀ s : Dependencies, (Dependencies.resolve s).isEmpty = false := by
  refine ⟨rfl, rfl, rfl, rfl, rfl, rfl, ?_⟩
  intro s
  cases s <;> rfl

/-- Claim C6: the search probes the configured table names in order and,
within one table, scans entries in iteration order, stopping at the first
entry the per-entry test accepts; on the spec's concrete scenario document
the `dependencies` entry for `foo` therefore beats the `dev-dependencies`
one. -/
theorem find_first_match_wins :
    (∀ (predicate : String → Bool) (convert : Bool) (kv : String × Value)
        (rest : Table),
      find_from_dependencies (kv :: rest) predicate convert
        = match matchEntry predicate convert kv with
          | some p => some p
          | none => find_from_dependencies rest predicate convert)
    ∧ (∀ (mani : Table) (opts : FindOptions) (d : String) (rest : List String)
        (predicate : String → Bool),
      Manifest.find ⟨mani, { opts with dependencies := d :: rest }⟩ predicate
        = match Manifest._find ⟨mani, { opts with dependencies := d :: rest }⟩
            d predicate with
          | some p => some p
          | none =>
              Manifest.find ⟨mani, { opts with dependencies := rest }⟩ predicate)
    ∧ scenarioManifest.find (fun s => s == "foo")
        = some { key := "foo", version := some "0.1", package := none,
                 rust_ident := "foo" } := by
  refine ⟨?_, ?_, by decide⟩
  · intro predicate convert kv rest
    unfold find_from_dependencies
    rw [find_map_cons]
    cases matchEntry predicate convert kv <;> rfl
  · intro mani opts d rest predicate
    unfold Manifest.find Manifest.dependencies
    rw [find_map_cons]
    cases Manifest._find ⟨mani, { opts with dependencies := d :: rest }⟩ d predicate <;> rfl

/-- Claim C2: the two-phase search runs the entire top-level pass first;
only when it yields nothing does it fall through to the scan of the
`target` sub-tables, and a top-level match always beats a target-nested
one. -/
theorem find_falls_through_to_targets (m : Manifest) (predicate : String → Bool) :
    (m.find predicate = none →
      findWithTargets m predicate = findTargets m predicate)
    ∧ ∀ p : Package, m.find predicate = some p →
        findWithTargets m predicate = some p := by
  constructor
  · intro h
    unfold findWithTargets
    rw [h]
  · intro p h
    unfold findWithTargets
    rw [h]

/-- Claim C2, witness: on a document whose only `foo` entry sits under
`target.'cfg(target_os = "linux")'.dependencies`, the top-level pass fails
and the target scan finds it with version `"0.1"`; on a document declaring
`foo` both at top level and under `target`, the top-level entry wins. -/
theorem find_falls_through_to_targets_witness :
    findWithTargets linuxTargetManifest (fun s => s == "foo")
      = some { key := "foo", version := some "0.1", package := none,
               rust_ident := "foo" }
    ∧ findWithTargets dualFooManifest (fun s => s == "foo")
      = some { key := "foo", version := some "0.5", package := none,
               rust_ident := "foo" } := by
  constructor
  · exact ((find_falls_through_to_targets linuxTargetManifest
      (fun s => s == "foo")).1 (by decide)).trans (by decide)
  · exact (find_falls_through_to_targets dualFooManifest
      (fun s => s == "foo")).2 _ (by decide)

/-- Claim C5: a successful search only ever returns an entry found in a
table whose name is in the configured dependency-table list: the witnessing
table name is a member of the list, its value in the document is a table,
and the returned descriptor's key is a key of that table. -/
theorem find_only_searched_tables (m : Manifest) (predicate : String → Bool)
    (p : Package) (h : m.find predicate = some p) :
    ∃ d ∈ m.dependencies, ∃ t : Table,
      (m.manifest.get d).bind Value.as_table = some t
      ∧ find_from_dependencies t predicate m.rust_ident = some p
      ∧ ∃ v : Value, (p.key, v) ∈ t := by
  rcases find_map_eq_some h with ⟨d, hd, hfind⟩
  unfold Manifest._find at hfind
  rcases Option.bind_eq_some.mp hfind with ⟨t, ht, hfdd⟩
  refine ⟨d, hd, t, ht, hfdd, ?_⟩
  rcases find_map_eq_some hfdd with ⟨kv, hkv, hme⟩
  refine ⟨kv.2, ?_⟩
  rw [matchEntry_key hme, Prod.mk.eta]
  exact hkv

/-- Claim C5, witness: on the spec's scenario document, the match for
`"bar"` is located in the `build-dependencies` table, which is in the
default list. -/
theorem find_only_searched_tables_witness :
    ∃ d ∈ scenarioManifest.dependencies, ∃ t : Table,
      (scenarioManifest.manifest.get d).bind Value.as_table = some t
      ∧ find_from_dependencies t (fun s => s == "bar") scenarioManifest.rust_ident
          = some { key := "bar", version := some "0.2", package := none,
                   rust_ident := "bar" }
      ∧ ∃ v : Value, (("bar" : String), v) ∈ t :=
  find_only_searched_tables scenarioManifest (fun s => s == "bar")
    { key := "bar", version := some "0.2", package := none, rust_ident := "bar" }
    (by decide)

/-- Claim C7: identifier normalization (the conversion applied by
`rust_ident` when enabled) is total on strings, idempotent, leaves a
hyphen-free string unchanged, and never shortens or rejects its input. -/
theorem rust_ident_normalization :
    (∀ s : String, rust_ident (rust_ident s true) true = rust_ident s true)
    ∧ (∀ s : String, '-' ∉ s.data → rust_ident s true = s)
    ∧ (∀ s : String, (rust_ident s true).length = s.length) := by
  have hf : ∀ c : Char,
      (if (if c = '-' then '_' else c) = '-' then '_'
       else (if c = '-' then '_' else c)) = (if c = '-' then '_' else c) := by
    intro c
    by_cases hc : c = '-'
    · subst hc; rfl
    · rw [if_neg hc, if_neg hc]
  refine ⟨?_, ?_, ?_⟩
  · intro s
    show String.mk (((String.mk (s.data.map (fun c => if c = '-' then '_' else c))).data).map
          (fun c => if c = '-' then '_' else c))
        = String.mk (s.data.map (fun c => if c = '-' then '_' else c))
    refine congrArg String.mk ?_
    rw [List.map_map]
    exact List.map_congr_left (fun c _ => hf c)
  · intro s h
    show String.mk (s.data.map (fun c => if c = '-' then '_' else c)) = s
    have hdata : s.data.map (fun c => if c = '-' then '_' else c) = s.data := by
      calc s.data.map (fun c => if c = '-' then '_' else c)
          = s.data.map id := List.map_congr_left (fun c hc => if_neg (fun e : c = '-' => h (e ▸ hc)))
        _ = s.data := List.map_id s.data
    rw [hdata]
  · intro s
    show (s.data.map (fun c => if c = '-' then '_' else c)).length = s.data.length
    exact List.length_map s.data (fun c => if c = '-' then '_' else c)

/-- Claim C7, witness: a hyphen-free name is fixed, and normalizing a
hyphenated name twice equals normalizing it once. -/
theorem rust_ident_normalization_witness :
    ('-' ∉ ("fooBar99" : String).data ∧ rust_ident "fooBar99" true = "fooBar99")
    ∧ rust_ident (rust_ident "foo-bar" true) true = rust_ident "foo-bar" true :=
  ⟨⟨by decide, rust_ident_normalization.2.1 "fooBar99" (by decide)⟩,
    rust_ident_normalization.1 "foo-bar"⟩

/-- Claim C8: `Manifest::find` reports a predicate matching nothing as a
normal absent result; `find_crate` is exactly the place where that absence
becomes the hard not-found error: `find_crate` fails with `Error.NotFound`
precisely when the manifest was located and loaded successfully and the
search returned `none`, and the carried path is the located manifest path
(so the loading pipeline itself never produces this error kind). -/
theorem not_found_only_from_find_crate (env : Option String) (fs : String → FsEntry)
    (predicate : String → Bool) (path : String) :
    find_crate env fs predicate = .error (.NotFound path)
      ↔ manifest_path env = .ok path
        ∧ ∃ m : Manifest, Manifest.from_path fs path = .ok m
            ∧ m.find predicate = none := by
  cases env with
  | none =>
      constructor
      · intro h
        injection h with h2
        cases h2
      · rintro ⟨hpath, -⟩
        cases hpath
  | some dir =>
      unfold find_crate
      dsimp only [manifest_path]
      constructor
      · intro h
        cases hfp : Manifest.from_path fs (dir ++ "/Cargo.toml") with
        | error e =>
            rw [hfp] at h
            injection h with h2
            exact absurd (hfp.trans (by rw [h2])) (from_path_no_notFound fs _ path)
        | ok m =>
            rw [hfp] at h
            dsimp only at h
            cases hfind : (m.find predicate).map Package.rust_ident with
            | some name =>
                rw [hfind] at h
                cases h
            | none =>
                rw [hfind] at h
                injection h with h2
                injection h2 with h3
                refine ⟨by rw [h3], m, ?_, ?_⟩
                · rw [← h3]
                  exact hfp
                · cases hmf : m.find predicate with
                  | none => rfl
                  | some pkg =>
                      rw [hmf] at hfind
                      cases hfind
      · rintro ⟨hpath, m, hm, hnone⟩
        injection hpath with hpath
        rw [← hpath] at hm
        rw [hm]
        dsimp only
        rw [hnone, hpath]
        rfl

/-- Claim C8, witness: a manifest that loads but contains no match makes
`find_crate` fail with the not-found error carrying the manifest path. -/
theorem not_found_only_from_find_crate_witness :
    find_crate (some "/proj")
        (fun _ => .file (some [("dependencies", .table [("foo", .str "0.1")])]))
        (fun s => s == "nope")
      = .error (.NotFound "/proj/Cargo.toml") :=
  (not_found_only_from_find_crate (some "/proj")
      (fun _ => .file (some [("dependencies", .table [("foo", .str "0.1")])]))
      (fun s => s == "nope") "/proj/Cargo.toml").mpr
    ⟨rfl, Manifest.from_raw [("dependencies", .table [("foo", .str "0.1")])], rfl,
      by decide⟩

/-- Claim C9: a query is side-effect-free over its inputs: running the
search with an arbitrarily stateful predicate threads only the closure
state, and when the predicate is pure the state comes back unchanged and
the result is exactly the pure function of the document and the options, so
two runs of `find` or `find_name` with the same pure predicate on the same
manifest return the same result and leave the manifest untouched. -/
theorem find_pure_predicate_frame {σ : Type} (m : Manifest)
    (predicate : String → σ → Bool × σ) (f : String → Bool) (s : σ)
    (hpure : ∀ x t, predicate x t = (f x, t)) :
    m.findS predicate s = (m.find f, s)
    ∧ m.find_nameS predicate s = (m.find_name f, s) := by
  have h1 : m.findS predicate s = (m.find f, s) :=
    findSAux_pure hpure m m.dependencies s
  refine ⟨h1, ?_⟩
  unfold Manifest.find_nameS Manifest.find_name
  rw [h1]

/-- Claim C9, witness: a pure predicate carried as stateful closure state
(a counter) leaves the state unchanged and returns the pure result. -/
theorem find_pure_predicate_frame_witness :
    scenarioManifest.findS (fun x (n : Nat) => (x == "foo", n)) 7
      = (scenarioManifest.find (fun x => x == "foo"), 7) :=
  (find_pure_predicate_frame scenarioManifest (fun x (n : Nat) => (x == "foo", n))
      (fun x => x == "foo") 7 (fun _ _ => rfl)).1

/-- Claim C10: locking is a pure caching optimization:
`manifest.lock().find(pred)` returns exactly what `manifest.find(pred)`
returns, for every document, dependency-table-name setting and predicate. -/
theorem lock_find_eq_find (m : Manifest) (predicate : String → Bool) :
    m.lock.find predicate = m.find predicate := by
  unfold Manifest.lock ManifestLock.new ManifestLock.find Manifest.find
    Manifest._find find_map
  rw [List.filterMap_filterMap]

end FindCrate
